import Mathlib

/-
Verification development for the spectral Vlasov-Maxwell solver
(`spectrax/_simulation.py`).  The scalar field of the simulation is kept
abstract: arrays of complex numbers are embedded as lists (flattened,
C-order) or index functions over an arbitrary `Field K`, with the imaginary
unit `1j` of the source passed explicitly as `imagI`.  Array shapes are
tracked explicitly so that reshape exactness is a provable statement rather
than a typing convention.
-/

set_option autoImplicit false

/-- Length-3 vector with named components, embedding `jnp` arrays whose
leading dimension is 3 (the components may themselves be grid arrays). -/
@[ext] structure Vec3 (A : Type) where
  x : A
  y : A
  z : A
deriving Repr, DecidableEq

instance {A : Type} [Neg A] : Neg (Vec3 A) := ⟨fun v => ⟨-v.x, -v.y, -v.z⟩⟩

instance {A : Type} [Zero A] : Zero (Vec3 A) := ⟨⟨0, 0, 0⟩⟩

/-- Embedding of `cross_product(k_vec, F_vec)` from `_simulation.py`: the
component formulas are transcribed from the source line
`jnp.array([ky*Fz - kz*Fy, kz*Fx - kx*Fz, kx*Fy - ky*Fx])`.  The element
type is any type with `*` and `-`, covering both plain scalars and
broadcast grid arrays (functions from grid index to scalar). -/
def cross_product {A : Type} [Mul A] [Sub A] (k_vec F_vec : Vec3 A) : Vec3 A :=
  ⟨k_vec.y * F_vec.z - k_vec.z * F_vec.y,
   k_vec.z * F_vec.x - k_vec.x * F_vec.z,
   k_vec.x * F_vec.y - k_vec.y * F_vec.x⟩

/-- Array read `l[j]`, with the out-of-range default 0 (reads in the
embedded code are always in range; the default only totalizes the map). -/
def aget {K : Type} [Zero K] (l : List K) (j : ℕ) : K := l.getD j 0

/-- Scalar-times-vector broadcast `c * v` for a 3-vector of grid arrays. -/
def vsmul {K : Type} [Mul K] (c : K) (v : Vec3 (ℕ → K)) : Vec3 (ℕ → K) :=
  ⟨fun j => c * v.x j, fun j => c * v.y j, fun j => c * v.z j⟩

/-- Componentwise difference of 3-vectors of grid arrays. -/
def vsub {K : Type} [Sub K] (u v : Vec3 (ℕ → K)) : Vec3 (ℕ → K) :=
  ⟨fun j => u.x j - v.x j, fun j => u.y j - v.y j, fun j => u.z j - v.z j⟩

/-- Broadcast division of a 3-vector of grid arrays by a scalar. -/
def vdivs {K : Type} [Div K] (v : Vec3 (ℕ → K)) (c : K) : Vec3 (ℕ → K) :=
  ⟨fun j => v.x j / c, fun j => v.y j / c, fun j => v.z j / c⟩

/-- Flattening (`reshape(-1)`, C-order) of an array of shape `(3, s)` whose
rows are the three components of `v`. -/
def flat3 {K : Type} (s : ℕ) (v : Vec3 (ℕ → K)) : List K :=
  ((List.range s).map v.x ++ (List.range s).map v.y) ++ (List.range s).map v.z

/-- Parameter tuple `args[7:]` unpacked at the top of `ode_system`
(`qs, nu, D, Omega_cs, alpha_s, u_s, Lx, Ly, Lz, kx_grid, ky_grid,
kz_grid, k2_grid, nabla, col, sqrt_n_plus, ..., sqrt_p_minus`).  Grid
arrays are functions from a flattened spatial index `(y*Nx + x)*Nz + z`
to the scalar; `nabla` has leading dimension 3. -/
structure OdeArgs (K : Type) where
  qs : List K
  nu : K
  D : K
  Omega_cs : List K
  alpha_s : List K
  u_s : List K
  Lx : K
  Ly : K
  Lz : K
  kx_grid : ℕ → K
  ky_grid : ℕ → K
  kz_grid : ℕ → K
  k2_grid : ℕ → K
  nabla : Vec3 (ℕ → K)
  col : ℕ → K
  sqrt_n_plus : List K
  sqrt_n_minus : List K
  sqrt_m_plus : List K
  sqrt_m_minus : List K
  sqrt_p_plus : List K
  sqrt_p_minus : List K

/-- Modelled from the spec: the collaborators of `ode_system` imported from
`spectrax._model`, whose source is not available here.
* `ifftn` models `jnp.fft.ifftn(jnp.fft.ifftshift(·))` with the
  "forward" normalization (spec 4.5), acting on a flattened array;
* `mask23` models `_twothirds_mask(Ny, Nx, Nz)`, the boolean 2/3-rule
  dealias mask over the flattened spatial grid (spec 4.1);
* `HFsys` models `Hermite_Fourier_system`, producing `dCk/dt` from the
  spectral and real-space coefficients and fields, the cached parameters
  and the dealias mask; the spec (4.4) guarantees its output is an array
  shaped identically to `Ck`, which claims take as a hypothesis;
* `plasma_current` models `plasma_current(qs, alpha_s, u_s, Ck, Nn, Nm,
  Np, Ns)`, the 3-component charge-weighted current density (spec 4.2).
The claims settled here do not depend on the internal formulas of these
functions, only on how `ode_system` and `simulation` combine them, so
they are kept as opaque components of this record. -/
structure ModelFns (K : Type) where
  ifftn : List K → List K
  mask23 : ℕ → ℕ → ℕ → (ℕ → Bool)
  HFsys : List K → List K → List K → OdeArgs K → (ℕ → Bool) → ℕ → ℕ → ℕ → ℕ → List K
  plasma_current : List K → List K → List K → List K → ℕ → ℕ → ℕ → ℕ → Vec3 (ℕ → K)

/-- Embedding of `ode_system(Nx, Ny, Nz, Nn, Nm, Np, Ns, t, Ck_Fk, args)`
from `_simulation.py`.  The flattened state is split at
`total_Ck_size = Nn*Nm*Np*Ns*Nx*Ny*Nz` into the distribution block `Ck`
and the 6-component field block `Fk` (components `c` occupying offsets
`c*s, ..., c*s + s - 1` with `s = Ny*Nx*Nz`); the derivative is the
Hermite-Fourier block followed by the flattened
`concatenate([dEk_dt, dBk_dt])` Maxwell block, exactly as in the source:
`dBk_dt = -1j * cross_product(nabla, Fk[:3])` and
`dEk_dt = 1j * cross_product(nabla, Fk[3:]) - current / Omega_cs[0]`. -/
def ode_system {K : Type} [Field K] (M : ModelFns K) (imagI : K)
    (Nx Ny Nz Nn Nm Np Ns : ℕ) (t : ℚ) (Ck_Fk : List K) (a : OdeArgs K) :
    List K :=
  let total_Ck_size := Nn * Nm * Np * Ns * Nx * Ny * Nz
  let s := Ny * Nx * Nz
  let Ck := Ck_Fk.take total_Ck_size
  let Fk := Ck_Fk.drop total_Ck_size
  let F := M.ifftn Fk
  let C := M.ifftn Ck
  let mask23 := M.mask23 Ny Nx Nz
  let dCk_s_dt := M.HFsys Ck C F a mask23 Nn Nm Np Ns
  let Ek : Vec3 (ℕ → K) :=
    ⟨fun j => aget Fk j, fun j => aget Fk (s + j), fun j => aget Fk (2 * s + j)⟩
  let Bk : Vec3 (ℕ → K) :=
    ⟨fun j => aget Fk (3 * s + j), fun j => aget Fk (4 * s + j), fun j => aget Fk (5 * s + j)⟩
  let dBk_dt := vsmul (-imagI) (cross_product a.nabla Ek)
  let current := M.plasma_current a.qs a.alpha_s a.u_s Ck Nn Nm Np Ns
  let dEk_dt := vsub (vsmul imagI (cross_product a.nabla Bk)) (vdivs current (aget a.Omega_cs 0))
  let dFk_dt := flat3 s dEk_dt ++ flat3 s dBk_dt
  dCk_s_dt ++ dFk_dt

/-- Shape-carrying array: flattened C-order data together with its shape.
Wellformed tensors satisfy `data.length = shape.prod`; `reshapeList`
(below) only ever constructs wellformed tensors. -/
structure Tensor (K : Type) where
  data : List K
  shape : List ℕ
deriving Repr, DecidableEq

/-- Embedding of `numpy`-style `reshape` with fully explicit target shape:
succeeds exactly when the element count matches the shape product (no
padding), which is the failure behaviour of `jnp.reshape`. -/
def reshapeList {K : Type} (l : List K) (s : List ℕ) : Option (Tensor K) :=
  if l.length = s.prod then some ⟨l, s⟩ else none

/-- Map over a list with the running index, used to embed positional
updates on flattened arrays. -/
def mapWithIdx {K : Type} (f : ℕ → K → K) : ℕ → List K → List K
  | _, [] => []
  | j, a :: l => f j a :: mapWithIdx f (j + 1) l

/-- Embedding of the JAX update `A.at[:, i, y, x, z].set(v)` on a tensor of
shape `[T, S, Ny, Nx, Nz]`: every flat position whose decoded multi-index
matches `(i, y, x, z)` (any leading time index) is replaced by `v`.  A
per-axis out-of-range index matches no flat position, reproducing the JAX
semantics of dropping out-of-bounds scatter updates.  On any other shape
the tensor is returned unchanged. -/
def set_slice {K : Type} (A : Tensor K) (i y x z : ℕ) (v : K) : Tensor K :=
  match A.shape with
  | [_T, S, Ny, Nx, Nz] =>
    ⟨mapWithIdx (fun j w =>
       if j % Nz = z ∧ (j / Nz) % Nx = x ∧ (j / (Nz * Nx)) % Ny = y ∧
          (j / (Nz * Nx * Ny)) % S = i
       then v else w) 0 A.data, A.shape⟩
  | _ => A

/-- Embedding of the perturbation derivation of `simulation`
(`dCk = Ck.at[:, 0, 0, 1, 0].set(0)` followed by
`dCk = dCk.at[:, Nn*Nm*Np, 0, 1, 0].set(0)`). -/
def dCk_from {K : Type} [Zero K] (Nn Nm Np : ℕ) (Ck : Tensor K) : Tensor K :=
  set_slice (set_slice Ck 0 0 1 0 (0 : K)) (Nn * Nm * Np) 0 1 0 (0 : K)

/-- C-order flat position of the multi-index `(t, i, y, x, z)` in a tensor
of shape `[T, S, Ny, Nx, Nz]`. -/
def flatIdx5 (S Ny Nx Nz t i y x z : ℕ) : ℕ :=
  z + Nz * (x + Nx * (y + Ny * (i + S * t)))

/-- Solution object returned by the external integrator: sampled times
`ts` and the corresponding rows `ys` of flattened states (the fields of
the `diffrax` solution that `simulation` reads). -/
structure Sol (K : Type) where
  ts : List ℚ
  ys : List (List K)

/-- Argument record of the single `diffeqsolve` call made by `simulation`:
derivative function, `PIDController(rtol, atol)` tolerances, time span and
initial step, initial state, cached args, output sample times `SaveAt(ts)`,
and `max_steps`. -/
structure SolveConfig (K : Type) where
  rhs : ℚ → List K → OdeArgs K → List K
  rtol : ℚ
  atol : ℚ
  t0 : ℚ
  t1 : ℚ
  dt0 : ℚ
  y0 : List K
  args : OdeArgs K
  saveTs : List ℚ
  maxSteps : ℕ

/-- Modelled from the spec: the parameter dictionary produced by the
external `initialize_simulation_parameters` (spec section 6), restricted
to the keys `simulation` reads: the initial blocks `Ck_0`, `Fk_0`
(already flattened), `t_max`, `ode_tolerance`, and the physical and grid
quantities that are repacked into the args tuple. -/
structure SimParams (K : Type) where
  Ck_0 : List K
  Fk_0 : List K
  t_max : ℚ
  ode_tolerance : ℚ
  qs : List K
  nu : K
  D : K
  Omega_cs : List K
  alpha_s : List K
  u_s : List K
  Lx : K
  Ly : K
  Lz : K
  kx_grid : ℕ → K
  ky_grid : ℕ → K
  kz_grid : ℕ → K
  k2_grid : ℕ → K
  nabla : Vec3 (ℕ → K)
  collision_matrix : ℕ → K
  sqrt_n_plus : List K
  sqrt_n_minus : List K
  sqrt_m_plus : List K
  sqrt_m_minus : List K
  sqrt_p_plus : List K
  sqrt_p_minus : List K

/-- Typed view of the output structure of `simulation`: the trajectory
tensors, the sample times, and the perturbation tensor.  The parameter
merge of the output dictionary is modelled separately by `pyMerge`. -/
structure SimOut (K : Type) where
  Ck : Option (Tensor K)
  Fk : Option (Tensor K)
  time : List ℚ
  dCk : Option (Tensor K)

/-- Embedding of `jnp.linspace(start, stop, num)`: `num` evenly spaced
samples from `start` to `stop` inclusive (for `num = 1` the rational
division by zero yields the single sample `start`, matching numpy). -/
def linspace (start stop : ℚ) (num : ℕ) : List ℚ :=
  (List.range num).map (fun i : ℕ => start + (stop - start) * (i : ℚ) / ((num : ℚ) - 1))

/-- Packing of the `args` tuple of `simulation` (lines 140-145) from the
initializer parameters; the leading static entries `Nx ... Ns` are the
separate arguments of `ode_system` in this embedding. -/
def simArgs {K : Type} (p : SimParams K) : OdeArgs K :=
  ⟨p.qs, p.nu, p.D, p.Omega_cs, p.alpha_s, p.u_s, p.Lx, p.Ly, p.Lz,
   p.kx_grid, p.ky_grid, p.kz_grid, p.k2_grid, p.nabla, p.collision_matrix,
   p.sqrt_n_plus, p.sqrt_n_minus, p.sqrt_m_plus, p.sqrt_m_minus,
   p.sqrt_p_plus, p.sqrt_p_minus⟩

/-- Configuration of the single `diffeqsolve` call in `simulation`:
`ODETerm(partial(ode_system, Nx, Ny, Nz, Nn, Nm, Np, Ns))`,
`PIDController(rtol=ode_tolerance, atol=ode_tolerance)`, `t0=0`,
`t1=t_max`, `dt0=dt`, `y0` the concatenated flattened initial blocks,
`SaveAt(ts=linspace(0, t_max, timesteps))`, `max_steps=1000000`. -/
def simCfg {K : Type} [Field K] (M : ModelFns K) (imagI : K) (p : SimParams K)
    (Nx Ny Nz Nn Nm Np Ns timesteps : ℕ) (dt : ℚ) : SolveConfig K :=
  ⟨fun t y a => ode_system M imagI Nx Ny Nz Nn Nm Np Ns t y a,
   p.ode_tolerance, p.ode_tolerance,
   0, p.t_max, dt,
   p.Ck_0 ++ p.Fk_0,
   simArgs p,
   linspace 0 p.t_max timesteps,
   1000000⟩

/-- Post-processing of the solver output (lines 160-165): slice off the
last `6*Nx*Ny*Nz` columns of `sol.ys` and reshape to
`(len(sol.ts), Ns*Nn*Nm*Np, Ny, Nx, Nz)` for `Ck`, reshape the sliced-off
columns to `(len(sol.ts), 6, Ny, Nx, Nz)` for `Fk`, and derive `dCk` by
the two positional zero-settings of `dCk_from`. -/
def simPost {K : Type} [Zero K] (Nx Ny Nz Nn Nm Np Ns : ℕ) (time : List ℚ)
    (sol : Sol K) : SimOut K :=
  let CkO := reshapeList
    ((sol.ys.map (fun r => r.take (r.length - 6 * Nx * Ny * Nz))).flatten)
    [sol.ts.length, Ns * Nn * Nm * Np, Ny, Nx, Nz]
  let FkO := reshapeList
    ((sol.ys.map (fun r => r.drop (r.length - 6 * Nx * Ny * Nz))).flatten)
    [sol.ts.length, 6, Ny, Nx, Nz]
  ⟨CkO, FkO, time, CkO.map (fun ck => dCk_from Nn Nm Np ck)⟩

/-- Embedding of `simulation` modulo the external collaborators: the
initializer output `p` is taken as given (it is external, spec section 1),
and the external adaptive integrator is the function argument `integ`,
invoked once on the assembled configuration; its failure, if any,
propagates unchanged (`Except.map`), and on success the solution is
post-processed into the output structure. -/
def simulation {K : Type} [Field K] {E : Type} (M : ModelFns K) (imagI : K)
    (integ : SolveConfig K → Except E (Sol K)) (p : SimParams K)
    (Nx Ny Nz Nn Nm Np Ns timesteps : ℕ) (dt : ℚ) : Except E (SimOut K) :=
  (integ (simCfg M imagI p Nx Ny Nz Nn Nm Np Ns timesteps dt)).map
    (fun sol => simPost Nx Ny Nz Nn Nm Np Ns (linspace 0 p.t_max timesteps) sol)

/-- Python dictionary merge `{**a, **b}`: the key set is the union, and on
a key collision the value of `b` (spread last) wins. -/
def pyMerge {V : Type} (a b : List (String × V)) : List (String × V) :=
  a.filter (fun kv => (b.lookup kv.1).isNone) ++ b

/-- Key-level model of the output dictionary of `simulation` (lines
168-169): `temporary_output = {"Ck": ..., "Fk": ..., "time": ..., "dCk":
...}` merged with the parameter dictionary spread last. -/
def simulation_output_dict {V : Type} (vCk vFk vtime vdCk : V)
    (parameters : List (String × V)) : List (String × V) :=
  pyMerge [("Ck", vCk), ("Fk", vFk), ("time", vtime), ("dCk", vdCk)] parameters

/-- Last `n` entries of a list (the trailing block of a flattened array). -/
def lastN {K : Type} (n : ℕ) (l : List K) : List K := l.drop (l.length - n)

/-- Concrete argument record over `ℚ` used to instantiate the theorems
below on explicit inputs. -/
def testArgs : OdeArgs ℚ :=
  ⟨[1], 0, 0, [1], [1], [1], 1, 1, 1,
   fun _ => 0, fun _ => 0, fun _ => 0, fun _ => 0,
   ⟨fun _ => 0, fun _ => 0, fun _ => 0⟩, fun _ => 0,
   [1], [0], [1], [0], [1], [0]⟩

/-- Concrete instantiation of the modelled collaborators over `ℚ`, with a
Hermite-Fourier block of the correct size `Nn*Nm*Np*Ns` for spatial grids
of size one. -/
def testM : ModelFns ℚ :=
  ⟨id,
   fun _ _ _ => fun _ => true,
   fun _ _ _ _ _ nn nm np ns => List.replicate (nn * nm * np * ns) 0,
   fun _ _ _ _ _ _ _ _ => ⟨fun _ => 0, fun _ => 0, fun _ => 0⟩⟩

/-- Concrete initializer output over `ℚ` for unit grids (state size
`1 + 6 = 7`), with `t_max = 1`. -/
def testParams : SimParams ℚ :=
  ⟨[0], List.replicate 6 0, 1, 1,
   [1], 0, 0, [1], [1], [1], 1, 1, 1,
   fun _ => 0, fun _ => 0, fun _ => 0, fun _ => 0,
   ⟨fun _ => 0, fun _ => 0, fun _ => 0⟩, fun _ => 0,
   [1], [0], [1], [0], [1], [0]⟩

/-- Solver output with a single sample of the 7-entry unit-grid state. -/
def wSol1 : Sol ℚ := ⟨[0], [List.replicate 7 0]⟩

/-- Integrator stub returning `wSol1`. -/
def wInteg1 : SolveConfig ℚ → Except ℕ (Sol ℚ) := fun _ => Except.ok wSol1

/-- Solver output with 200 samples of the default-scenario state
(`Ns*Nn*Nm*Np*Nx = 40*33 = 1320` distribution entries plus `6*33 = 198`
field entries per row). -/
def wSol200 : Sol ℚ :=
  ⟨List.replicate 200 0, List.replicate 200 (List.replicate 1518 0)⟩

/-- Integrator stub returning `wSol200`. -/
def wInteg200 : SolveConfig ℚ → Except ℕ (Sol ℚ) := fun _ => Except.ok wSol200

/-- Integrator stub that fails with error code 7. -/
def wErrInteg : SolveConfig ℚ → Except ℕ (Sol ℚ) := fun _ => Except.error 7

lemma flat3_length {K : Type} (s : ℕ) (v : Vec3 (ℕ → K)) :
    (flat3 s v).length = s + s + s := by
  simp [flat3]
  ring

lemma lastN_append {K : Type} (n : ℕ) (l1 l2 : List K) (h : n ≤ l2.length) :
    lastN n (l1 ++ l2) = lastN n l2 := by
  unfold lastN
  rw [List.length_append]
  have he : l1.length + l2.length - n = l1.length + (l2.length - n) := by omega
  rw [he, List.drop_append]

lemma lastN_of_le {K : Type} (n : ℕ) (l : List K) (h : l.length ≤ n) :
    lastN n l = l := by
  unfold lastN
  rw [Nat.sub_eq_zero_of_le h, List.drop_zero]

/-- C6: for all 3-vectors (or broadcastable 3-component arrays) `a` and
`b`, `cross_product a b = -cross_product b a` and
`cross_product a a = 0`. -/
theorem cross_product_antisymm_self_zero {A : Type} [CommRing A] :
    (∀ a b : Vec3 A, cross_product a b = -cross_product b a)
    ∧ (∀ a : Vec3 A, cross_product a a = 0) := by
  constructor
  · intro a b
    refine Vec3.ext ?_ ?_ ?_
    · show a.y * b.z - a.z * b.y = -(b.y * a.z - b.z * a.y); ring
    · show a.z * b.x - a.x * b.z = -(b.z * a.x - b.x * a.z); ring
    · show a.x * b.y - a.y * b.x = -(b.x * a.y - b.y * a.x); ring
  · intro a
    refine Vec3.ext ?_ ?_ ?_
    · show a.y * a.z - a.z * a.y = 0; ring
    · show a.z * a.x - a.x * a.z = 0; ring
    · show a.x * a.y - a.y * a.x = 0; ring

/-- C4: `ode_system` is a pure deterministic function of the state and the
cached args that does not depend on the time argument: evaluations at any
two times `t1`, `t2` on the same state and args coincide (and, the
embedding being a function, repeated evaluations on identical inputs are
identical). -/
theorem ode_system_time_independent {K : Type} [Field K] (M : ModelFns K)
    (imagI : K) (Nx Ny Nz Nn Nm Np Ns : ℕ) (t1 t2 : ℚ) (yv : List K)
    (a : OdeArgs K) :
    ode_system M imagI Nx Ny Nz Nn Nm Np Ns t1 yv a
      = ode_system M imagI Nx Ny Nz Nn Nm Np Ns t2 yv a := rfl

/-- C3: on a flattened state of length exactly
`Ns*Nn*Nm*Np*Ny*Nx*Nz + 6*Ny*Nx*Nz`, `ode_system` unpacks the first
`Nn*Nm*Np*Ns*Nx*Ny*Nz` entries as the `Ck` block and the trailing
`6*Ny*Nx*Nz` entries as the `Fk` block (the reshape counts are exact, no
padding), and — given the spec guarantee that the Hermite-Fourier block is
shaped like `Ck` — returns a flattened derivative of exactly the input
length. -/
theorem ode_system_state_packing {K : Type} [Field K] (M : ModelFns K)
    (imagI : K) (Nx Ny Nz Nn Nm Np Ns : ℕ) (t : ℚ) (yv : List K)
    (a : OdeArgs K)
    (hlen : yv.length = Nn * Nm * Np * Ns * Nx * Ny * Nz + 6 * (Ny * Nx * Nz))
    (hHF : (M.HFsys (yv.take (Nn * Nm * Np * Ns * Nx * Ny * Nz))
              (M.ifftn (yv.take (Nn * Nm * Np * Ns * Nx * Ny * Nz)))
              (M.ifftn (yv.drop (Nn * Nm * Np * Ns * Nx * Ny * Nz)))
              a (M.mask23 Ny Nx Nz) Nn Nm Np Ns).length
            = Nn * Nm * Np * Ns * Nx * Ny * Nz) :
    (yv.take (Nn * Nm * Np * Ns * Nx * Ny * Nz)).length
        = Nn * Nm * Np * Ns * Nx * Ny * Nz
    ∧ (yv.drop (Nn * Nm * Np * Ns * Nx * Ny * Nz)).length = 6 * (Ny * Nx * Nz)
    ∧ (ode_system M imagI Nx Ny Nz Nn Nm Np Ns t yv a).length = yv.length := by
  refine ⟨?_, ?_, ?_⟩
  · rw [List.length_take, hlen]; omega
  · rw [List.length_drop, hlen]; omega
  · simp only [ode_system]
    rw [List.length_append, List.length_append, hHF, flat3_length, flat3_length,
        hlen]
    ring

/-- C1: for every unpacked state, the field-derivative block assembled by
`ode_system` (the entries after the `Ck` block) consists of exactly the 6
spatial components ordered E-derivative first and B-derivative second,
with `dE/dt = i (nabla x B) - J / Omega_cs[0]` and
`dB/dt = -i (nabla x E)`, where `E` is the first 3 components of `Fk`,
`B` the last 3, `J` the `plasma_current` output, and the cross product the
standard cyclic one `(a x b)_x = a_y b_z - a_z b_y`. -/
theorem ode_system_maxwell_contract {K : Type} [Field K] (M : ModelFns K)
    (imagI : K) (Nx Ny Nz Nn Nm Np Ns : ℕ) (t : ℚ) (yv : List K)
    (a : OdeArgs K)
    (hHF : (M.HFsys (yv.take (Nn * Nm * Np * Ns * Nx * Ny * Nz))
              (M.ifftn (yv.take (Nn * Nm * Np * Ns * Nx * Ny * Nz)))
              (M.ifftn (yv.drop (Nn * Nm * Np * Ns * Nx * Ny * Nz)))
              a (M.mask23 Ny Nx Nz) Nn Nm Np Ns).length
            = Nn * Nm * Np * Ns * Nx * Ny * Nz) :
    (ode_system M imagI Nx Ny Nz Nn Nm Np Ns t yv a).drop
        (Nn * Nm * Np * Ns * Nx * Ny * Nz)
      = ((((List.range (Ny * Nx * Nz)).map fun j =>
             imagI * (a.nabla.y j * aget (yv.drop (Nn * Nm * Np * Ns * Nx * Ny * Nz)) (5 * (Ny * Nx * Nz) + j)
                 - a.nabla.z j * aget (yv.drop (Nn * Nm * Np * Ns * Nx * Ny * Nz)) (4 * (Ny * Nx * Nz) + j))
               - (M.plasma_current a.qs a.alpha_s a.u_s (yv.take (Nn * Nm * Np * Ns * Nx * Ny * Nz)) Nn Nm Np Ns).x j / aget a.Omega_cs 0)
          ++ (List.range (Ny * Nx * Nz)).map fun j =>
             imagI * (a.nabla.z j * aget (yv.drop (Nn * Nm * Np * Ns * Nx * Ny * Nz)) (3 * (Ny * Nx * Nz) + j)
                 - a.nabla.x j * aget (yv.drop (Nn * Nm * Np * Ns * Nx * Ny * Nz)) (5 * (Ny * Nx * Nz) + j))
               - (M.plasma_current a.qs a.alpha_s a.u_s (yv.take (Nn * Nm * Np * Ns * Nx * Ny * Nz)) Nn Nm Np Ns).y j / aget a.Omega_cs 0)
          ++ (List.range (Ny * Nx * Nz)).map fun j =>
             imagI * (a.nabla.x j * aget (yv.drop (Nn * Nm * Np * Ns * Nx * Ny * Nz)) (4 * (Ny * Nx * Nz) + j)
                 - a.nabla.y j * aget (yv.drop (Nn * Nm * Np * Ns * Nx * Ny * Nz)) (3 * (Ny * Nx * Nz) + j))
               - (M.plasma_current a.qs a.alpha_s a.u_s (yv.take (Nn * Nm * Np * Ns * Nx * Ny * Nz)) Nn Nm Np Ns).z j / aget a.Omega_cs 0)
        ++ ((((List.range (Ny * Nx * Nz)).map fun j =>
             (-imagI) * (a.nabla.y j * aget (yv.drop (Nn * Nm * Np * Ns * Nx * Ny * Nz)) (2 * (Ny * Nx * Nz) + j)
                 - a.nabla.z j * aget (yv.drop (Nn * Nm * Np * Ns * Nx * Ny * Nz)) (Ny * Nx * Nz + j)))
          ++ (List.range (Ny * Nx * Nz)).map fun j =>
             (-imagI) * (a.nabla.z j * aget (yv.drop (Nn * Nm * Np * Ns * Nx * Ny * Nz)) j
                 - a.nabla.x j * aget (yv.drop (Nn * Nm * Np * Ns * Nx * Ny * Nz)) (2 * (Ny * Nx * Nz) + j)))
          ++ (List.range (Ny * Nx * Nz)).map fun j =>
             (-imagI) * (a.nabla.x j * aget (yv.drop (Nn * Nm * Np * Ns * Nx * Ny * Nz)) (Ny * Nx * Nz + j)
                 - a.nabla.y j * aget (yv.drop (Nn * Nm * Np * Ns * Nx * Ny * Nz)) j)) := by
  simp only [ode_system]
  rw [List.drop_left' hHF]
  rfl

/-- C10: the dB/dt block (the last `3*Ny*Nx*Nz` entries of the
`ode_system` output) does not depend on the distribution block: two states
that agree on the field block produce identical dB/dt blocks. -/
theorem ode_system_dB_independent_of_Ck {K : Type} [Field K]
    (M : ModelFns K) (imagI : K) (Nx Ny Nz Nn Nm Np Ns : ℕ) (t : ℚ)
    (y1 y2 : List K) (a : OdeArgs K)
    (hfield : y1.drop (Nn * Nm * Np * Ns * Nx * Ny * Nz)
        = y2.drop (Nn * Nm * Np * Ns * Nx * Ny * Nz)) :
    lastN (3 * (Ny * Nx * Nz)) (ode_system M imagI Nx Ny Nz Nn Nm Np Ns t y1 a)
      = lastN (3 * (Ny * Nx * Nz)) (ode_system M imagI Nx Ny Nz Nn Nm Np Ns t y2 a) := by
  have key : ∀ yv : List K,
      lastN (3 * (Ny * Nx * Nz)) (ode_system M imagI Nx Ny Nz Nn Nm Np Ns t yv a)
        = flat3 (Ny * Nx * Nz) (vsmul (-imagI) (cross_product a.nabla
            ⟨fun j => aget (yv.drop (Nn * Nm * Np * Ns * Nx * Ny * Nz)) j,
             fun j => aget (yv.drop (Nn * Nm * Np * Ns * Nx * Ny * Nz)) (Ny * Nx * Nz + j),
             fun j => aget (yv.drop (Nn * Nm * Np * Ns * Nx * Ny * Nz)) (2 * (Ny * Nx * Nz) + j)⟩)) := by
    intro yv
    simp only [ode_system]
    rw [lastN_append, lastN_append, lastN_of_le]
    · rw [flat3_length]
      omega
    · rw [flat3_length]
      omega
    · rw [List.length_append, flat3_length, flat3_length]
      omega
  rw [key y1, key y2, hfield]

/-- C1 witness: the Maxwell-contract theorem applied on the concrete
7-entry unit-grid state `[3, 4, 5, 6, 7, 8, 9]` over `ℚ`. -/
theorem ode_system_maxwell_contract_holds :
    ((testM.HFsys ([(3 : ℚ), 4, 5, 6, 7, 8, 9].take (1 * 1 * 1 * 1 * 1 * 1 * 1))
        (testM.ifftn ([(3 : ℚ), 4, 5, 6, 7, 8, 9].take (1 * 1 * 1 * 1 * 1 * 1 * 1)))
        (testM.ifftn ([(3 : ℚ), 4, 5, 6, 7, 8, 9].drop (1 * 1 * 1 * 1 * 1 * 1 * 1)))
        testArgs (testM.mask23 1 1 1) 1 1 1 1).length = 1 * 1 * 1 * 1 * 1 * 1 * 1)
    ∧ (ode_system testM (2 : ℚ) 1 1 1 1 1 1 1 0 [3, 4, 5, 6, 7, 8, 9] testArgs).drop
        (1 * 1 * 1 * 1 * 1 * 1 * 1)
      = ((((List.range (1 * 1 * 1)).map fun j =>
             (2 : ℚ) * (testArgs.nabla.y j * aget ([(3 : ℚ), 4, 5, 6, 7, 8, 9].drop (1 * 1 * 1 * 1 * 1 * 1 * 1)) (5 * (1 * 1 * 1) + j)
                 - testArgs.nabla.z j * aget ([(3 : ℚ), 4, 5, 6, 7, 8, 9].drop (1 * 1 * 1 * 1 * 1 * 1 * 1)) (4 * (1 * 1 * 1) + j))
               - (testM.plasma_current testArgs.qs testArgs.alpha_s testArgs.u_s ([(3 : ℚ), 4, 5, 6, 7, 8, 9].take (1 * 1 * 1 * 1 * 1 * 1 * 1)) 1 1 1 1).x j / aget testArgs.Omega_cs 0)
          ++ (List.range (1 * 1 * 1)).map fun j =>
             (2 : ℚ) * (testArgs.nabla.z j * aget ([(3 : ℚ), 4, 5, 6, 7, 8, 9].drop (1 * 1 * 1 * 1 * 1 * 1 * 1)) (3 * (1 * 1 * 1) + j)
                 - testArgs.nabla.x j * aget ([(3 : ℚ), 4, 5, 6, 7, 8, 9].drop (1 * 1 * 1 * 1 * 1 * 1 * 1)) (5 * (1 * 1 * 1) + j))
               - (testM.plasma_current testArgs.qs testArgs.alpha_s testArgs.u_s ([(3 : ℚ), 4, 5, 6, 7, 8, 9].take (1 * 1 * 1 * 1 * 1 * 1 * 1)) 1 1 1 1).y j / aget testArgs.Omega_cs 0)
          ++ (List.range (1 * 1 * 1)).map fun j =>
             (2 : ℚ) * (testArgs.nabla.x j * aget ([(3 : ℚ), 4, 5, 6, 7, 8, 9].drop (1 * 1 * 1 * 1 * 1 * 1 * 1)) (4 * (1 * 1 * 1) + j)
                 - testArgs.nabla.y j * aget ([(3 : ℚ), 4, 5, 6, 7, 8, 9].drop (1 * 1 * 1 * 1 * 1 * 1 * 1)) (3 * (1 * 1 * 1) + j))
               - (testM.plasma_current testArgs.qs testArgs.alpha_s testArgs.u_s ([(3 : ℚ), 4, 5, 6, 7, 8, 9].take (1 * 1 * 1 * 1 * 1 * 1 * 1)) 1 1 1 1).z j / aget testArgs.Omega_cs 0)
        ++ ((((List.range (1 * 1 * 1)).map fun j =>
             (-(2 : ℚ)) * (testArgs.nabla.y j * aget ([(3 : ℚ), 4, 5, 6, 7, 8, 9].drop (1 * 1 * 1 * 1 * 1 * 1 * 1)) (2 * (1 * 1 * 1) + j)
                 - testArgs.nabla.z j * aget ([(3 : ℚ), 4, 5, 6, 7, 8, 9].drop (1 * 1 * 1 * 1 * 1 * 1 * 1)) (1 * 1 * 1 + j)))
          ++ (List.range (1 * 1 * 1)).map fun j =>
             (-(2 : ℚ)) * (testArgs.nabla.z j * aget ([(3 : ℚ), 4, 5, 6, 7, 8, 9].drop (1 * 1 * 1 * 1 * 1 * 1 * 1)) j
                 - testArgs.nabla.x j * aget ([(3 : ℚ), 4, 5, 6, 7, 8, 9].drop (1 * 1 * 1 * 1 * 1 * 1 * 1)) (2 * (1 * 1 * 1) + j)))
          ++ (List.range (1 * 1 * 1)).map fun j =>
             (-(2 : ℚ)) * (testArgs.nabla.x j * aget ([(3 : ℚ), 4, 5, 6, 7, 8, 9].drop (1 * 1 * 1 * 1 * 1 * 1 * 1)) (1 * 1 * 1 + j)
                 - testArgs.nabla.y j * aget ([(3 : ℚ), 4, 5, 6, 7, 8, 9].drop (1 * 1 * 1 * 1 * 1 * 1 * 1)) j)) :=
  ⟨by rfl,
   ode_system_maxwell_contract testM 2 1 1 1 1 1 1 1 0 [3, 4, 5, 6, 7, 8, 9]
     testArgs (by rfl)⟩

/-- C3 witness: the state-packing theorem applied on the concrete 7-entry
unit-grid state over `ℚ`. -/
theorem ode_system_state_packing_holds :
    (([(3 : ℚ), 4, 5, 6, 7, 8, 9] : List ℚ).length
        = 1 * 1 * 1 * 1 * 1 * 1 * 1 + 6 * (1 * 1 * 1))
    ∧ ((testM.HFsys ([(3 : ℚ), 4, 5, 6, 7, 8, 9].take (1 * 1 * 1 * 1 * 1 * 1 * 1))
        (testM.ifftn ([(3 : ℚ), 4, 5, 6, 7, 8, 9].take (1 * 1 * 1 * 1 * 1 * 1 * 1)))
        (testM.ifftn ([(3 : ℚ), 4, 5, 6, 7, 8, 9].drop (1 * 1 * 1 * 1 * 1 * 1 * 1)))
        testArgs (testM.mask23 1 1 1) 1 1 1 1).length = 1 * 1 * 1 * 1 * 1 * 1 * 1)
    ∧ (([(3 : ℚ), 4, 5, 6, 7, 8, 9].take (1 * 1 * 1 * 1 * 1 * 1 * 1)).length
          = 1 * 1 * 1 * 1 * 1 * 1 * 1
        ∧ ([(3 : ℚ), 4, 5, 6, 7, 8, 9].drop (1 * 1 * 1 * 1 * 1 * 1 * 1)).length
          = 6 * (1 * 1 * 1)
        ∧ (ode_system testM (2 : ℚ) 1 1 1 1 1 1 1 0 [3, 4, 5, 6, 7, 8, 9]
            testArgs).length = ([(3 : ℚ), 4, 5, 6, 7, 8, 9] : List ℚ).length) :=
  ⟨by rfl, by rfl,
   ode_system_state_packing testM 2 1 1 1 1 1 1 1 0 [3, 4, 5, 6, 7, 8, 9]
     testArgs (by rfl) (by rfl)⟩

/-- C10 witness: the dB-independence theorem applied on two concrete
states over `ℚ` that differ in the distribution entry only. -/
theorem ode_system_dB_independent_of_Ck_holds :
    (([(1 : ℚ), 2, 3, 4, 5, 6, 7] : List ℚ).drop (1 * 1 * 1 * 1 * 1 * 1 * 1)
        = ([(9 : ℚ), 2, 3, 4, 5, 6, 7] : List ℚ).drop (1 * 1 * 1 * 1 * 1 * 1 * 1))
    ∧ lastN (3 * (1 * 1 * 1))
        (ode_system testM (2 : ℚ) 1 1 1 1 1 1 1 0 [1, 2, 3, 4, 5, 6, 7] testArgs)
      = lastN (3 * (1 * 1 * 1))
        (ode_system testM (2 : ℚ) 1 1 1 1 1 1 1 0 [9, 2, 3, 4, 5, 6, 7] testArgs) :=
  ⟨by rfl,
   ode_system_dB_independent_of_Ck testM 2 1 1 1 1 1 1 1 0
     [1, 2, 3, 4, 5, 6, 7] [9, 2, 3, 4, 5, 6, 7] testArgs (by rfl)⟩

/-- C7: `simulation` makes a single integrator invocation whose
configuration carries `ode_system` partially applied to the static mode
counts as the derivative function, `rtol = atol = ode_tolerance`, the
finite internal step bound 1000000, and output sampled exactly at the
uniform time grid; the returned value is that single invocation's result
mapped through the post-processing, so an integrator failure propagates
unchanged to the caller with no local recovery. -/
theorem simulation_integrator_call {K : Type} [Field K] {E : Type}
    (M : ModelFns K) (imagI : K) (integ : SolveConfig K → Except E (Sol K))
    (p : SimParams K) (Nx Ny Nz Nn Nm Np Ns timesteps : ℕ) (dt : ℚ) :
    simulation M imagI integ p Nx Ny Nz Nn Nm Np Ns timesteps dt
      = (integ (simCfg M imagI p Nx Ny Nz Nn Nm Np Ns timesteps dt)).map
          (fun sol => simPost Nx Ny Nz Nn Nm Np Ns (linspace 0 p.t_max timesteps) sol)
    ∧ (simCfg M imagI p Nx Ny Nz Nn Nm Np Ns timesteps dt).rhs
        = (fun t yv a => ode_system M imagI Nx Ny Nz Nn Nm Np Ns t yv a)
    ∧ (simCfg M imagI p Nx Ny Nz Nn Nm Np Ns timesteps dt).rtol = p.ode_tolerance
    ∧ (simCfg M imagI p Nx Ny Nz Nn Nm Np Ns timesteps dt).atol = p.ode_tolerance
    ∧ (simCfg M imagI p Nx Ny Nz Nn Nm Np Ns timesteps dt).maxSteps = 1000000
    ∧ (simCfg M imagI p Nx Ny Nz Nn Nm Np Ns timesteps dt).saveTs
        = linspace 0 p.t_max timesteps
    ∧ ∀ e : E,
        integ (simCfg M imagI p Nx Ny Nz Nn Nm Np Ns timesteps dt)
            = Except.error e →
        simulation M imagI integ p Nx Ny Nz Nn Nm Np Ns timesteps dt
            = Except.error e := by
  refine ⟨rfl, rfl, rfl, rfl, rfl, rfl, ?_⟩
  intro e he
  simp [simulation, he, Except.map]

/-- C7 witness: with a concrete failing integrator the failure code 7 is
returned unchanged by `simulation`. -/
theorem simulation_integrator_call_holds :
    wErrInteg (simCfg testM (2 : ℚ) testParams 1 1 1 1 1 1 1 1 1)
        = Except.error 7
    ∧ simulation testM (2 : ℚ) wErrInteg testParams 1 1 1 1 1 1 1 1 1
        = Except.error 7 :=
  ⟨rfl,
   (simulation_integrator_call testM 2 wErrInteg testParams
      1 1 1 1 1 1 1 1 1).2.2.2.2.2.2 7 rfl⟩

lemma lookup_pyMerge {V : Type} (a b : List (String × V)) (k : String) :
    (pyMerge a b).lookup k
      = if (b.lookup k).isSome then b.lookup k else a.lookup k := by
  induction a with
  | nil =>
    simp only [pyMerge, List.filter_nil, List.nil_append, List.lookup_nil]
    cases hb : b.lookup k <;> simp
  | cons kv a ih =>
    obtain ⟨k1, v1⟩ := kv
    simp only [pyMerge] at ih ⊢
    rw [List.filter_cons]
    cases hp : (b.lookup k1).isNone with
    | true =>
      rw [if_pos (by simpa using hp)]
      cases hk : (k == k1) with
      | true =>
        have hkk : k = k1 := by simpa using hk
        subst hkk
        have hbnone : b.lookup k = none := Option.isNone_iff_eq_none.mp hp
        simp [List.lookup_cons, hbnone]
      | false =>
        simp only [List.cons_append, List.lookup_cons, hk]
        rw [ih]
    | false =>
      rw [if_neg (by simp [hp])]
      rw [ih]
      by_cases hx : (b.lookup k).isSome
      · simp [hx]
      · have hbn : b.lookup k = none := by
          cases h2 : b.lookup k
          · rfl
          · rw [h2] at hx; simp at hx
        cases hk : (k == k1) with
        | false => simp [hbn, List.lookup_cons, hk]
        | true =>
          exfalso
          have hkk : k = k1 := by simpa using hk
          subst hkk
          rw [hbn] at hp
          simp at hp

/-- C8: the output dictionary of `simulation` contains the keys `Ck`,
`Fk`, `time`, `dCk` together with every key of the parameter dictionary,
and on every parameter key the returned value is exactly the parameter's
value (the parameters are spread last in the merge `{**temporary_output,
**parameters}`, and the merge builds a new dictionary, leaving the
parameter dictionary itself untouched). -/
theorem simulation_output_merge {V : Type} (vCk vFk vtime vdCk : V)
    (ps : List (String × V)) :
    (∀ k v, ps.lookup k = some v →
        (simulation_output_dict vCk vFk vtime vdCk ps).lookup k = some v)
    ∧ ((simulation_output_dict vCk vFk vtime vdCk ps).lookup "Ck").isSome = true
    ∧ ((simulation_output_dict vCk vFk vtime vdCk ps).lookup "Fk").isSome = true
    ∧ ((simulation_output_dict vCk vFk vtime vdCk ps).lookup "time").isSome = true
    ∧ ((simulation_output_dict vCk vFk vtime vdCk ps).lookup "dCk").isSome = true := by
  refine ⟨?_, ?_, ?_, ?_, ?_⟩
  · intro k v hv
    rw [simulation_output_dict, lookup_pyMerge, hv]
    simp
  all_goals
    rw [simulation_output_dict, lookup_pyMerge]
    split
    · simp_all
    · simp [List.lookup_cons]

/-- C8 witness: on the concrete parameter dictionary `[("t_max", 9)]` the
parameter value survives the merge unchanged. -/
theorem simulation_output_merge_holds :
    ([((("t_max" : String), (9 : ℕ)))] : List (String × ℕ)).lookup "t_max"
        = some 9
    ∧ (simulation_output_dict (1 : ℕ) 2 3 4 [("t_max", 9)]).lookup "t_max"
        = some 9 :=
  ⟨by decide,
   (simulation_output_merge (1 : ℕ) 2 3 4 [("t_max", 9)]).1 "t_max" 9
     (by decide)⟩

lemma mapWithIdx_length {K : Type} (f : ℕ → K → K) (l : List K) :
    ∀ j, (mapWithIdx f j l).length = l.length := by
  induction l with
  | nil => intro j; rfl
  | cons a l ih => intro j; simp [mapWithIdx, ih]

lemma mapWithIdx_getD {K : Type} (f : ℕ → K → K) (l : List K) (d : K) :
    ∀ j n, n < l.length → (mapWithIdx f j l).getD n d = f (j + n) (l.getD n d) := by
  induction l with
  | nil => intro j n h; simp at h
  | cons a l ih =>
    intro j n h
    cases n with
    | zero => simp [mapWithIdx]
    | succ n =>
      simp only [mapWithIdx, List.getD_cons_succ]
      rw [ih (j + 1) n (by simpa using h)]
      congr 1
      omega

lemma flat_step_lt {a n b m : ℕ} (ha : a < n) (hb : b < m) :
    a + n * b < n * m :=
  calc a + n * b < n + n * b := by omega
    _ = n * (b + 1) := by ring
    _ ≤ n * m := Nat.mul_le_mul_left n (by omega)

lemma flatIdx5_lt {S Ny Nx Nz T t i y x z : ℕ} (ht : t < T) (hi : i < S)
    (hy : y < Ny) (hx : x < Nx) (hz : z < Nz) :
    flatIdx5 S Ny Nx Nz t i y x z < T * (S * (Ny * (Nx * Nz))) := by
  have h1 : i + S * t < S * T := flat_step_lt hi ht
  have h2 : y + Ny * (i + S * t) < Ny * (S * T) := flat_step_lt hy h1
  have h3 : x + Nx * (y + Ny * (i + S * t)) < Nx * (Ny * (S * T)) :=
    flat_step_lt hx h2
  have h4 : z + Nz * (x + Nx * (y + Ny * (i + S * t)))
      < Nz * (Nx * (Ny * (S * T))) := flat_step_lt hz h3
  calc flatIdx5 S Ny Nx Nz t i y x z
      = z + Nz * (x + Nx * (y + Ny * (i + S * t))) := rfl
    _ < Nz * (Nx * (Ny * (S * T))) := h4
    _ = T * (S * (Ny * (Nx * Nz))) := by ring

lemma flatIdx5_decode {S Ny Nx Nz i y x z : ℕ} (t : ℕ) (hi : i < S) (hy : y < Ny)
    (hx : x < Nx) (hz : z < Nz) :
    flatIdx5 S Ny Nx Nz t i y x z % Nz = z
    ∧ (flatIdx5 S Ny Nx Nz t i y x z / Nz) % Nx = x
    ∧ (flatIdx5 S Ny Nx Nz t i y x z / (Nz * Nx)) % Ny = y
    ∧ (flatIdx5 S Ny Nx Nz t i y x z / (Nz * Nx * Ny)) % S = i := by
  have hz0 : 0 < Nz := by omega
  have hx0 : 0 < Nx := by omega
  have hy0 : 0 < Ny := by omega
  have d1 : flatIdx5 S Ny Nx Nz t i y x z / Nz
      = x + Nx * (y + Ny * (i + S * t)) := by
    unfold flatIdx5
    rw [Nat.add_mul_div_left _ _ hz0, Nat.div_eq_of_lt hz, Nat.zero_add]
  have d2 : flatIdx5 S Ny Nx Nz t i y x z / (Nz * Nx)
      = y + Ny * (i + S * t) := by
    rw [← Nat.div_div_eq_div_mul, d1, Nat.add_mul_div_left _ _ hx0,
      Nat.div_eq_of_lt hx, Nat.zero_add]
  have d3 : flatIdx5 S Ny Nx Nz t i y x z / (Nz * Nx * Ny) = i + S * t := by
    rw [← Nat.div_div_eq_div_mul, d2, Nat.add_mul_div_left _ _ hy0,
      Nat.div_eq_of_lt hy, Nat.zero_add]
  refine ⟨?_, ?_, ?_, ?_⟩
  · unfold flatIdx5
    rw [Nat.add_mul_mod_self_left, Nat.mod_eq_of_lt hz]
  · rw [d1, Nat.add_mul_mod_self_left, Nat.mod_eq_of_lt hx]
  · rw [d2, Nat.add_mul_mod_self_left, Nat.mod_eq_of_lt hy]
  · rw [d3, Nat.add_mul_mod_self_left, Nat.mod_eq_of_lt hi]

/-- C9: on every successful run of `simulation`, the returned `dCk`
differs from the returned `Ck` in at most the two entries at
species-moment indices `0` and `Nn*Nm*Np` at spatial position
`(y, x, z) = (0, 1, 0)` of each time sample: every entry whose
multi-index is not one of those two targets is unchanged (in particular,
for `Ns > 2` no entry of any species beyond the first two is touched). -/
theorem simulation_dCk_frame {K : Type} [Field K] {E : Type}
    (M : ModelFns K) (imagI : K) (integ : SolveConfig K → Except E (Sol K))
    (p : SimParams K) (Nx Ny Nz Nn Nm Np Ns timesteps : ℕ) (dt : ℚ)
    (out : SimOut K) (ck : Tensor K) (T t i y x z : ℕ)
    (hrun : simulation M imagI integ p Nx Ny Nz Nn Nm Np Ns timesteps dt
        = Except.ok out)
    (hck : out.Ck = some ck)
    (hshape : ck.shape = [T, Ns * Nn * Nm * Np, Ny, Nx, Nz])
    (ht : t < T) (hi : i < Ns * Nn * Nm * Np) (hy : y < Ny) (hx : x < Nx)
    (hz : z < Nz)
    (hnot : ¬ ((i = 0 ∨ i = Nn * Nm * Np) ∧ y = 0 ∧ x = 1 ∧ z = 0)) :
    out.dCk = some (dCk_from Nn Nm Np ck)
    ∧ (dCk_from Nn Nm Np ck).data.getD
        (flatIdx5 (Ns * Nn * Nm * Np) Ny Nx Nz t i y x z) 0
      = ck.data.getD (flatIdx5 (Ns * Nn * Nm * Np) Ny Nx Nz t i y x z) 0 := by
  cases hcase : integ (simCfg M imagI p Nx Ny Nz Nn Nm Np Ns timesteps dt) with
  | error e =>
    rw [simulation, hcase] at hrun
    simp [Except.map] at hrun
  | ok sol =>
    rw [simulation, hcase] at hrun
    simp only [Except.map] at hrun
    have hout : out = simPost Nx Ny Nz Nn Nm Np Ns
        (linspace 0 p.t_max timesteps) sol := by
      cases hrun
      rfl
    subst hout
    simp only [simPost] at hck ⊢
    rw [reshapeList] at hck
    split at hck
    case isFalse => simp at hck
    case isTrue hlen =>
      have hckv := Option.some.inj hck
      constructor
      · rw [← hckv, reshapeList, if_pos hlen]
        rfl
      · rw [← hckv] at hshape ⊢
        simp only at hshape
        have hT : sol.ts.length = T := (List.cons.injEq _ _ _ _).mp hshape |>.1
        have htT : t < sol.ts.length := by omega
        have hnlt : flatIdx5 (Ns * Nn * Nm * Np) Ny Nx Nz t i y x z
            < ((sol.ys.map fun r => r.take (r.length - 6 * Nx * Ny * Nz)).flatten).length := by
          rw [hlen]
          have := flatIdx5_lt htT hi hy hx hz
          simpa [Nat.mul_assoc] using this
        obtain ⟨dz, dx2, dy2, di⟩ := flatIdx5_decode t hi hy hx hz
        have hP1 : ¬ (flatIdx5 (Ns * Nn * Nm * Np) Ny Nx Nz t i y x z % Nz = 0
            ∧ (flatIdx5 (Ns * Nn * Nm * Np) Ny Nx Nz t i y x z / Nz) % Nx = 1
            ∧ (flatIdx5 (Ns * Nn * Nm * Np) Ny Nx Nz t i y x z / (Nz * Nx)) % Ny = 0
            ∧ (flatIdx5 (Ns * Nn * Nm * Np) Ny Nx Nz t i y x z / (Nz * Nx * Ny))
                % (Ns * Nn * Nm * Np) = 0) := by
          rintro ⟨h1, h2, h3, h4⟩
          rw [dz] at h1
          rw [dx2] at h2
          rw [dy2] at h3
          rw [di] at h4
          exact hnot ⟨Or.inl h4, h3, h2, h1⟩
        have hP2 : ¬ (flatIdx5 (Ns * Nn * Nm * Np) Ny Nx Nz t i y x z % Nz = 0
            ∧ (flatIdx5 (Ns * Nn * Nm * Np) Ny Nx Nz t i y x z / Nz) % Nx = 1
            ∧ (flatIdx5 (Ns * Nn * Nm * Np) Ny Nx Nz t i y x z / (Nz * Nx)) % Ny = 0
            ∧ (flatIdx5 (Ns * Nn * Nm * Np) Ny Nx Nz t i y x z / (Nz * Nx * Ny))
                % (Ns * Nn * Nm * Np) = Nn * Nm * Np) := by
          rintro ⟨h1, h2, h3, h4⟩
          rw [dz] at h1
          rw [dx2] at h2
          rw [dy2] at h3
          rw [di] at h4
          exact hnot ⟨Or.inr h4, h3, h2, h1⟩
        simp only [dCk_from, set_slice]
        rw [mapWithIdx_getD _ _ _ 0 _ (by rw [mapWithIdx_length]; exact hnlt),
          mapWithIdx_getD _ _ _ 0 _ hnlt]
        simp only [Nat.zero_add]
        rw [if_neg hP2, if_neg hP1]

/-- C9 witness: the frame theorem applied to a concrete successful
unit-grid run, at the in-bounds multi-index `(0,0,0,0,0)` (which is not a
target since its x-index is 0, not 1). -/
theorem simulation_dCk_frame_holds :
    (simPost 1 1 1 1 1 1 1 (linspace 0 testParams.t_max 1) wSol1).dCk
        = some (dCk_from 1 1 1 (⟨[0], [1, 1, 1, 1, 1]⟩ : Tensor ℚ))
    ∧ (dCk_from 1 1 1 (⟨[0], [1, 1, 1, 1, 1]⟩ : Tensor ℚ)).data.getD
        (flatIdx5 (1 * 1 * 1 * 1) 1 1 1 0 0 0 0 0) 0
      = (⟨[0], [1, 1, 1, 1, 1]⟩ : Tensor ℚ).data.getD
        (flatIdx5 (1 * 1 * 1 * 1) 1 1 1 0 0 0 0 0) 0 :=
  simulation_dCk_frame testM 2 wInteg1 testParams 1 1 1 1 1 1 1 1 1
    (simPost 1 1 1 1 1 1 1 (linspace 0 testParams.t_max 1) wSol1)
    ⟨[0], [1, 1, 1, 1, 1]⟩ 1 0 0 0 0 0 rfl rfl rfl
    (by decide) (by decide) (by decide) (by decide) (by decide) (by decide)

/-- C2: evaluation of the perturbation derivation at a failing input.  On
a wellformed `Ck` of shape `[1, 1, 1, 5, 1]` (one time sample, one
species-moment, `Nx = 5`) filled with ones, the code zeroes the entry at
x-index 1 and leaves the centered zero mode (x-index `Nx / 2 = 2` of the
shifted Fourier grid) untouched, contradicting the claimed (and
code-commented) `k = 0` background removal. -/
theorem simulation_dCk_zero_mode_eval :
    dCk_from 1 1 1 (⟨[1, 1, 1, 1, 1], [1, 1, 1, 5, 1]⟩ : Tensor ℤ)
        = (⟨[1, 0, 1, 1, 1], [1, 1, 1, 5, 1]⟩ : Tensor ℤ)
    ∧ (dCk_from 1 1 1 (⟨[1, 1, 1, 1, 1], [1, 1, 1, 5, 1]⟩ : Tensor ℤ)).data.getD
        (flatIdx5 1 1 5 1 0 0 0 2 0) 0 = 1
    ∧ flatIdx5 1 1 5 1 0 0 0 2 0 = 5 / 2 := by
  refine ⟨by decide, by decide, by decide⟩

lemma linspace_length (start stop : ℚ) (num : ℕ) :
    (linspace start stop num).length = num := by
  simp [linspace]

lemma linspace_getElem? (start stop : ℚ) (num n : ℕ) (h : n < num) :
    (linspace start stop num)[n]?
      = some (start + (stop - start) * (n : ℚ) / ((num : ℚ) - 1)) := by
  rw [linspace, List.getElem?_map, List.getElem?_range h]
  rfl

lemma flatten_map_length {K : Type} (f : List K → List K) (l : List (List K))
    (c : ℕ) (h : ∀ r ∈ l, (f r).length = c) :
    ((l.map f).flatten).length = l.length * c := by
  rw [List.length_flatten, List.map_map]
  have hc : List.map (List.length ∘ f) l = List.map (fun _ => c) l :=
    List.map_congr_left (fun r hr => h r hr)
  rw [hc, List.map_const', List.sum_replicate, smul_eq_mul]

/-- C5 (amended for `timesteps ≥ 2`): on every successful run whose solver
output satisfies the integrator contract (`len(sol.ts) = len(sol.ys) =
timesteps`, each row of the exact state length), `simulation` returns
`Ck` of shape `(timesteps, Ns*Nn*Nm*Np, Ny, Nx, Nz)`, `Fk` of shape
`(timesteps, 6, Ny, Nx, Nz)`, and a uniform time grid of length
`timesteps` starting at 0 and ending at `t_max` with constant step
`t_max / (timesteps - 1)`.  (For `timesteps = 1` the shapes still hold
but the single sample time is 0, not `t_max`.) -/
theorem simulation_output_shapes {K : Type} [Field K] {E : Type}
    (M : ModelFns K) (imagI : K) (integ : SolveConfig K → Except E (Sol K))
    (p : SimParams K) (Nx Ny Nz Nn Nm Np Ns timesteps : ℕ) (dt : ℚ)
    (sol : Sol K)
    (hinteg : integ (simCfg M imagI p Nx Ny Nz Nn Nm Np Ns timesteps dt)
        = Except.ok sol)
    (hts : sol.ts.length = timesteps)
    (hys : sol.ys.length = timesteps)
    (hrow : ∀ r ∈ sol.ys,
        r.length = Nn * Nm * Np * Ns * Nx * Ny * Nz + 6 * Nx * Ny * Nz)
    (ht2 : 2 ≤ timesteps) :
    ∃ out : SimOut K,
      simulation M imagI integ p Nx Ny Nz Nn Nm Np Ns timesteps dt
          = Except.ok out
      ∧ (∃ ckd, out.Ck = some ⟨ckd, [timesteps, Ns * Nn * Nm * Np, Ny, Nx, Nz]⟩)
      ∧ (∃ fkd, out.Fk = some ⟨fkd, [timesteps, 6, Ny, Nx, Nz]⟩)
      ∧ out.time.length = timesteps
      ∧ out.time.head? = some 0
      ∧ out.time.getLast? = some p.t_max
      ∧ (∀ n, n + 1 < timesteps →
          out.time.getD (n + 1) 0 - out.time.getD n 0
            = p.t_max / ((timesteps : ℚ) - 1)) := by
  have hc2 : ((timesteps : ℚ) - 1) ≠ 0 := by
    have h2 : (2 : ℚ) ≤ (timesteps : ℚ) := by exact_mod_cast ht2
    intro hc
    linarith
  refine ⟨simPost Nx Ny Nz Nn Nm Np Ns (linspace 0 p.t_max timesteps) sol,
    ?_, ?_, ?_, ?_, ?_, ?_, ?_⟩
  · rw [simulation, hinteg]
    rfl
  · have hrowlen : ∀ r ∈ sol.ys, (r.take (r.length - 6 * Nx * Ny * Nz)).length
        = Nn * Nm * Np * Ns * Nx * Ny * Nz := by
      intro r hr
      rw [List.length_take, hrow r hr]
      omega
    have hlen1 := flatten_map_length _ sol.ys _ hrowlen
    have hcond : ((sol.ys.map fun r => r.take (r.length - 6 * Nx * Ny * Nz)).flatten).length
        = [timesteps, Ns * Nn * Nm * Np, Ny, Nx, Nz].prod := by
      rw [hlen1, hys]
      simp only [List.prod_cons, List.prod_nil]
      ring
    simp only [simPost]
    rw [hts, reshapeList, if_pos hcond]
    exact ⟨_, rfl⟩
  · have hrowlen : ∀ r ∈ sol.ys, (r.drop (r.length - 6 * Nx * Ny * Nz)).length
        = 6 * Nx * Ny * Nz := by
      intro r hr
      rw [List.length_drop, hrow r hr]
      omega
    have hlen1 := flatten_map_length _ sol.ys _ hrowlen
    have hcond : ((sol.ys.map fun r => r.drop (r.length - 6 * Nx * Ny * Nz)).flatten).length
        = [timesteps, 6, Ny, Nx, Nz].prod := by
      rw [hlen1, hys]
      simp only [List.prod_cons, List.prod_nil]
      ring
    simp only [simPost]
    rw [hts, reshapeList, if_pos hcond]
    exact ⟨_, rfl⟩
  · exact linspace_length 0 p.t_max timesteps
  · show (linspace 0 p.t_max timesteps).head? = some 0
    rw [List.head?_eq_getElem?, linspace_getElem? _ _ _ 0 (by omega)]
    norm_num
  · show (linspace 0 p.t_max timesteps).getLast? = some p.t_max
    rw [List.getLast?_eq_getElem?, linspace_length,
      linspace_getElem? _ _ _ (timesteps - 1) (by omega)]
    have hcast : ((timesteps - 1 : ℕ) : ℚ) = (timesteps : ℚ) - 1 := by
      push_cast [Nat.cast_sub (by omega : 1 ≤ timesteps)]
      ring
    rw [hcast]
    congr 1
    field_simp
  · intro n hn
    show (linspace 0 p.t_max timesteps).getD (n + 1) 0
        - (linspace 0 p.t_max timesteps).getD n 0 = p.t_max / ((timesteps : ℚ) - 1)
    rw [List.getD_eq_getElem?_getD, List.getD_eq_getElem?_getD,
      linspace_getElem? _ _ _ (n + 1) (by omega),
      linspace_getElem? _ _ _ n (by omega)]
    simp only [Option.getD_some]
    push_cast
    field_simp
    ring

/-- C5 witness: the default scenario `Nx=33, Ny=1, Nz=1, Nn=20, Nm=1,
Np=1, Ns=2, timesteps=200, dt=0.01` yields `Ck` of shape
`(200, 40, 1, 33, 1)`, `Fk` of shape `(200, 6, 1, 33, 1)`, and a uniform
200-point time grid from 0 to `t_max`. -/
theorem simulation_output_shapes_holds :
    ∃ out : SimOut ℚ,
      simulation testM (2 : ℚ) wInteg200 testParams 33 1 1 20 1 1 2 200 (1 / 100)
          = Except.ok out
      ∧ (∃ ckd, out.Ck = some ⟨ckd, [200, 40, 1, 33, 1]⟩)
      ∧ (∃ fkd, out.Fk = some ⟨fkd, [200, 6, 1, 33, 1]⟩)
      ∧ out.time.length = 200
      ∧ out.time.head? = some 0
      ∧ out.time.getLast? = some testParams.t_max
      ∧ (∀ n, n + 1 < 200 →
          out.time.getD (n + 1) 0 - out.time.getD n 0
            = testParams.t_max / (((200 : ℕ) : ℚ) - 1)) :=
  simulation_output_shapes testM 2 wInteg200 testParams 33 1 1 20 1 1 2 200
    (1 / 100) wSol200 rfl
    (by
      show (List.replicate 200 (0 : ℚ)).length = 200
      rw [List.length_replicate])
    (by
      show (List.replicate 200 (List.replicate 1518 (0 : ℚ))).length = 200
      rw [List.length_replicate])
    (by
      intro r hr
      have hr2 : r = List.replicate 1518 (0 : ℚ) := List.eq_of_mem_replicate hr
      rw [hr2]
      norm_num)
    (by norm_num)

/-- C5 counterexample: a run with `timesteps = 1` and `t_max = 1` returns
a time grid whose last element is 0, not `t_max`, so the claim as stated
(for every run, the last element of `time` is `t_max`) is false. -/
theorem simulation_time_endpoint_cex :
    simulation testM (2 : ℚ) wInteg1 testParams 1 1 1 1 1 1 1 1 1
        = Except.ok (simPost 1 1 1 1 1 1 1 (linspace 0 testParams.t_max 1) wSol1)
    ∧ (simPost 1 1 1 1 1 1 1 (linspace 0 testParams.t_max 1) wSol1).time.getLast?
        = some 0
    ∧ testParams.t_max = 1
    ∧ some (0 : ℚ) ≠ some (1 : ℚ) := by
  refine ⟨rfl, ?_, rfl, by norm_num⟩
  show (linspace 0 testParams.t_max 1).getLast? = some 0
  rw [List.getLast?_eq_getElem?, linspace_length, linspace_getElem? _ _ _ 0 (by norm_num)]
  norm_num
